import Mathlib

/-
  Verification development for the friend-circle feed aggregation worker.

  The embedding below translates the worker source (the RSS/Atom ingestion
  pipeline: getConfig, fetchFeed, fetchAllFeeds, extractSummary,
  truncateSummary, parseFeed, processEntries) into Lean.

  Modelling conventions:
  - The XML library output (xml2js) is modelled by `XVal` / `XItem` /
    `XChannel` / `XDoc`: every child tag is an array of values, each value
    being either a plain string or an element node carrying optional text
    content (the underscore field) and an optional attribute map (the dollar
    field, absent when the element has no attributes).
  - JavaScript runtime errors (calling trim on a non-string, reading a
    property of undefined) are modelled with `Except JsErr`; the source
    catches them per feed and degrades that feed to an empty list.
  - The implementation-defined JS date parser (new Date(string)) is passed
    in as an oracle `dp : String → Option Int` returning epoch milliseconds,
    `none` meaning Invalid Date (NaN); the ECMAScript TimeClip bound is
    applied on top of it. `Date.now()` / `new Date()` is the parameter
    `now : Int`.
  - Entry.date stores the millisecond value; the source stores
    `toISOString` of it and later re-parses that string, a lossless round
    trip for every clipped time value, so the integer model is faithful.
  - The network is an oracle producing, per attempt, either a timeout, a
    non-success HTTP response, or a body whose XML parse is a given `XDoc`.
  - JS string length and substring count UTF-16 code units; the model
    counts characters, which agrees on all inputs used here.
-/

namespace FriendCircle

/-- A parsed-XML value: a plain string, or an element node with optional
text content and an optional attribute list. -/
inductive XVal where
  | str (s : String)
  | node (text : Option String) (attrs : Option (List (String × String)))
deriving DecidableEq, Repr

/-- JS truthiness of a field value: empty strings are falsy, objects truthy. -/
def XVal.truthy : XVal → Bool
  | .str s => s ≠ ""
  | .node _ _ => true

/-- JS a || b over possibly-undefined field values. -/
def jsOr (a b : Option XVal) : Option XVal :=
  match a with
  | some v => if v.truthy then some v else b
  | none => b

/-- field?.[0] : the first element of an optional array. -/
def xFirst (f : Option (List XVal)) : Option XVal :=
  f.bind List.head?

/-- Reading one attribute out of an attribute map. -/
def attrLookup (attrs : List (String × String)) (k : String) : Option String :=
  (attrs.find? (fun p => p.1 = k)).map Prod.snd

/-- Whitespace characters as treated by the JS trim method and by the
whitespace collapsing of the worded cleaning transform; the model covers
the whitespace characters occurring in feed text. -/
def isWsChar (c : Char) : Bool :=
  c = ' ' || c = '\t' || c = '\n' || c = '\r'

/-- Drop leading whitespace from a character list. -/
def trimWsLeft : List Char → List Char
  | [] => []
  | c :: cs => if isWsChar c then trimWsLeft cs else c :: cs

/-- The JS trim method: strip whitespace from both ends. Implemented by
structural recursion so that concrete instances evaluate. -/
def jsTrim (s : String) : String :=
  String.mk (trimWsLeft ((trimWsLeft s.data.reverse).reverse))

/-- A parsed item or entry: each field the XML library may produce for it,
as an optional array of values. -/
structure XItem where
  title : Option (List XVal) := none
  link : Option (List XVal) := none
  pubDate : Option (List XVal) := none
  date : Option (List XVal) := none
  updated : Option (List XVal) := none
  published : Option (List XVal) := none
  summary : Option (List XVal) := none
  description : Option (List XVal) := none
  content : Option (List XVal) := none
deriving DecidableEq, Repr

/-- A channel object of the classic dialect; the source reads only its item
array. -/
structure XChannel where
  item : Option (List XItem) := none
deriving DecidableEq, Repr

/-- The XML parse outcome for a whole document: a parse error, a classic
root (rss, with the channel array present or absent), a modern root (feed
with its entry array), or any other shape. -/
inductive XDoc where
  | err
  | rss (channel : Option (List XChannel))
  | feedDoc (entry : Option (List XItem))
  | other
deriving DecidableEq, Repr

/-- A JavaScript runtime error (TypeError) raised while reading an item. -/
inductive JsErr where
  | typeError
deriving DecidableEq, Repr

instance {ε α : Type} [DecidableEq ε] [DecidableEq α] : DecidableEq (Except ε α) := fun x y =>
  match x, y with
  | .ok a, .ok b =>
    if h : a = b then isTrue (by rw [h])
    else isFalse (fun he => h (Except.ok.inj he))
  | .error a, .error b =>
    if h : a = b then isTrue (by rw [h])
    else isFalse (fun he => h (Except.error.inj he))
  | .ok _, .error _ => isFalse (fun he => Except.noConfusion he)
  | .error _, .ok _ => isFalse (fun he => Except.noConfusion he)

/-- The worker configuration (getConfig): numeric knobs parsed from
environment strings. -/
structure Config where
  limit : Int := 50
  daysLimit : Int := 30
  timeout : Int := 10000
  summaryLimit : Int := 100
deriving DecidableEq, Repr

/-- A normalized entry as pushed by parseFeed; date is the millisecond
time value whose ISO string the source stores. -/
structure Entry where
  title : String
  link : String
  date : Int
  summary : Option String
  sourceName : String
deriving DecidableEq, Repr

/-- The placeholder title the source uses for absent titles. -/
def placeholderTitle : String := "无标题"

/-- extractSummary, translated clause by clause from the source. The for
loop over the summary array always returns (or raises) on its first
element: an element node with a type=html attribute yields its text when
truthy and null otherwise, any other element node has no trim method and
raises, a plain string is trimmed. An empty summary array falls through to
the second summary block, which reads index 0 of the empty array and
raises. With summary absent, the description then content arrays are
consulted: a string first element is trimmed, anything else raises. -/
def extractSummary (item : XItem) : Except JsErr (Option String) :=
  match item.summary with
  | some (v :: _) =>
    match v with
    | .node text (some attrs) =>
      if attrLookup attrs "type" = some "html" then
        .ok (match text with
             | some t => if t = "" then none else some (jsTrim t)
             | none => none)
      else .error .typeError
    | .node _ none => .error .typeError
    | .str s => .ok (some (jsTrim s))
  | some [] => .error .typeError
  | none =>
    match item.description with
    | some (.str s :: _) => .ok (some (jsTrim s))
    | some _ => .error .typeError
    | none =>
      match item.content with
      | some (.str s :: _) => .ok (some (jsTrim s))
      | some _ => .error .typeError
      | none => .ok none

/-- One pass of the global tag-stripping regex of truncateSummary: each
unconsumed opening angle bracket starts a match that runs through every
character up to and including the next closing angle bracket, or to the end
of the string when none follows; all matches are deleted. The boolean says
whether the scanner is inside such a match. -/
def stripTagsAux : Bool → List Char → List Char
  | _, [] => []
  | false, c :: cs =>
    if c = '<' then stripTagsAux true cs else c :: stripTagsAux false cs
  | true, c :: cs =>
    if c = '>' then stripTagsAux false cs else stripTagsAux true cs

/-- The tag-stripping replace of truncateSummary. -/
def stripTags (s : String) : String :=
  String.mk (stripTagsAux false s.data)

/-- truncateSummary from the source: a missing or empty summary, or a
non-positive limit, yields null; otherwise tags are stripped and the text
is returned as is when within the limit, else cut at the limit with the
six-dot ellipsis appended. -/
def truncateSummary (summary : Option String) (limit : Int) : Option String :=
  match summary with
  | none => none
  | some s =>
    if s = "" then none
    else if limit ≤ 0 then none
    else
      let textOnly := stripTags s
      if (textOnly.length : Int) ≤ limit then some textOnly
      else some (String.mk (textOnly.data.take limit.toNat) ++ "......")

/-- The ECMAScript TimeClip bound: time values beyond 8.64e15 milliseconds
from the epoch are invalid. -/
def timeClip (t : Int) : Option Int :=
  if t.natAbs ≤ 8640000000000000 then some t else none

/-- new Date(v) for a field value: a string goes through the date oracle,
an element node coerces to a non-date string and is invalid. -/
def jsDateOf (dp : String → Option Int) : XVal → Option Int
  | .str s => (dp s).bind timeClip
  | .node _ _ => none

/-- pd ? new Date(pd) : new Date() — a truthy field value is parsed, a
falsy or absent one defaults to the current time. -/
def resolveDate (dp : String → Option Int) (now : Int) (pd : Option XVal) : Option Int :=
  match pd with
  | some v => if v.truthy then jsDateOf dp v else some now
  | none => some now

/-- The classic-dialect date resolution: pubDate first, then date. -/
def resolveDateRss (dp : String → Option Int) (now : Int) (item : XItem) : Option Int :=
  resolveDate dp now (jsOr (xFirst item.pubDate) (xFirst item.date))

/-- The modern-dialect date resolution: updated first, then published. -/
def resolveDateAtom (dp : String → Option Int) (now : Int) (item : XItem) : Option Int :=
  resolveDate dp now (jsOr (xFirst item.updated) (xFirst item.published))

/-- field?.[0]?.trim() || dflt : absent or blank gives the default, a
string is trimmed, an element node has no trim method and raises. -/
def jsTrimOr (v : Option XVal) (dflt : String) : Except JsErr String :=
  match v with
  | none => .ok dflt
  | some (.str s) => .ok (if jsTrim s = "" then dflt else jsTrim s)
  | some (.node _ _) => .error .typeError

/-- Processing of one classic-dialect item inside parseFeed: an invalid
date fails the recency comparison (NaN is not greater than anything) and
the item is dropped; a time value within the window produces an entry,
with the summary extracted then truncated and title and link defaulted. -/
def rssItemEntry (dp : String → Option Int) (now timeLimit : Int) (cfg : Config)
    (name : String) (item : XItem) : Except JsErr (Option Entry) :=
  match resolveDateRss dp now item with
  | none => .ok none
  | some t =>
    if timeLimit < t then
      match extractSummary item with
      | .error e => .error e
      | .ok rawSummary =>
        match jsTrimOr (xFirst item.title) placeholderTitle with
        | .error e => .error e
        | .ok title =>
          match jsTrimOr (xFirst item.link) "#" with
          | .error e => .error e
          | .ok link =>
            .ok (some { title := title, link := link, date := t,
                        summary := truncateSummary rawSummary cfg.summaryLimit,
                        sourceName := name })
    else .ok none

/-- link?.find of the element whose rel attribute is alternate: the
predicate reads the attribute map of each candidate in order, raising on a
plain string or an attributeless node, and returns the attribute map of
the first match. -/
def findAlternate : List XVal → Except JsErr (Option (List (String × String)))
  | [] => .ok none
  | .str _ :: _ => .error .typeError
  | .node _ none :: _ => .error .typeError
  | .node _ (some attrs) :: rest =>
    if attrLookup attrs "rel" = some "alternate" then .ok (some attrs)
    else findAlternate rest

/-- The href of the found alternate link, when any. -/
def atomAltLinkHref (link : Option (List XVal)) : Except JsErr (Option String) :=
  match link with
  | none => .ok none
  | some l =>
    match findAlternate l with
    | .error e => .error e
    | .ok r => .ok (r.bind (fun a => attrLookup a "href"))

/-- link?.[0]?.$.href : the href of the first link element; reading the
attribute map of a plain string or an attributeless node raises. -/
def atomFirstLinkHref (link : Option (List XVal)) : Except JsErr (Option String) :=
  match xFirst link with
  | none => .ok none
  | some (.str _) => .error .typeError
  | some (.node _ none) => .error .typeError
  | some (.node _ (some attrs)) => .ok (attrLookup attrs "href")

/-- JS truthiness of a possibly-undefined string. -/
def strTruthy : Option String → Bool
  | some s => s ≠ ""
  | none => false

/-- The modern-dialect link chain: the alternate link href, else the first
link href, else the placeholder; each disjunct is only evaluated when the
previous one was falsy. -/
def atomLink (link : Option (List XVal)) : Except JsErr String :=
  match atomAltLinkHref link with
  | .error e => .error e
  | .ok a =>
    if strTruthy a then .ok (a.getD "")
    else
      match atomFirstLinkHref link with
      | .error e => .error e
      | .ok b => .ok (if strTruthy b then b.getD "" else "#")

/-- The modern-dialect title chain: the text of the first title element
when non-blank, else trim applied to the element itself, which raises on
an element node; a plain string is trimmed; absent or blank falls to the
placeholder. -/
def atomTitle (title : Option (List XVal)) : Except JsErr String :=
  match xFirst title with
  | none => .ok placeholderTitle
  | some (.str s) => .ok (if jsTrim s = "" then placeholderTitle else jsTrim s)
  | some (.node text _) =>
    match text with
    | some s => if jsTrim s = "" then .error .typeError else .ok (jsTrim s)
    | none => .error .typeError

/-- Processing of one modern-dialect entry inside parseFeed. -/
def atomItemEntry (dp : String → Option Int) (now timeLimit : Int) (cfg : Config)
    (name : String) (item : XItem) : Except JsErr (Option Entry) :=
  match resolveDateAtom dp now item with
  | none => .ok none
  | some t =>
    if timeLimit < t then
      match atomLink item.link with
      | .error e => .error e
      | .ok link =>
        match extractSummary item with
        | .error e => .error e
        | .ok rawSummary =>
          match atomTitle item.title with
          | .error e => .error e
          | .ok title =>
            .ok (some { title := title, link := link, date := t,
                        summary := truncateSummary rawSummary cfg.summaryLimit,
                        sourceName := name })
    else .ok none

/-- The forEach accumulation of parseFeed: items are processed in order,
dropped items contribute nothing, and a raised error aborts the whole
collection (the source catch then discards everything pushed so far). -/
def collectEntries (f : XItem → Except JsErr (Option Entry)) :
    List XItem → Except JsErr (List Entry)
  | [] => .ok []
  | i :: is =>
    match f i with
    | .error e => .error e
    | .ok none => collectEntries f is
    | .ok (some x) =>
      match collectEntries f is with
      | .error e => .error e
      | .ok l => .ok (x :: l)

/-- parseFeed from the source: an XML parse error resolves to the empty
list; a classic root with a channel array processes the items of the first
channel (an empty channel array raises when channel zero is read, caught to
the empty list); a modern root processes its entries; any other shape
yields the empty list; any error raised while processing items is caught
and the whole feed contributes the empty list. -/
def parseFeed (dp : String → Option Int) (now : Int) (doc : XDoc)
    (name : String) (cfg : Config) : List Entry :=
  let timeLimit := now - cfg.daysLimit * 86400000
  match doc with
  | .err => []
  | .rss none => []
  | .rss (some channels) =>
    match channels.head? with
    | none => []
    | some ch =>
      match collectEntries (rssItemEntry dp now timeLimit cfg name) (ch.item.getD []) with
      | .ok l => l
      | .error _ => []
  | .feedDoc entry? =>
    match collectEntries (atomItemEntry dp now timeLimit cfg name) (entry?.getD []) with
    | .ok l => l
    | .error _ => []
  | .other => []

/-- The outcome of one network attempt against a feed URL: an abort by the
timeout controller, a response with a non-success status, or a success
whose body parses (by the XML library) to the given document. -/
inductive FetchResult where
  | timeout
  | httpFail (status : Nat)
  | success (doc : XDoc)
deriving DecidableEq, Repr

/-- A timeout or a non-success status counts as a failure. -/
def FetchResult.failed : FetchResult → Bool
  | .success _ => false
  | _ => true

/-- fetchFeed from the source: exactly one fetch call is issued (attempt
zero of the oracle); an abort or a thrown status error is caught inside
fetchFeed and the source contributes the empty list; a success body is
handed to parseFeed. -/
def fetchFeed (attempts : Nat → FetchResult) (name : String)
    (dp : String → Option Int) (now : Int) (cfg : Config) : List Entry :=
  match attempts 0 with
  | .success doc => parseFeed dp now doc name cfg
  | _ => []

/-- Modelled from the spec: the FeedFetcher contract of section 4.1, which
the source does not implement — retry up to two additional attempts (the
fixed delay between attempts is not observable in this embedding), a
timeout or non-success status counting as a failure; after retries exhaust
the FetchError is caught by the caller and becomes an empty contribution. -/
def fetchFeedRetrySpec (attempts : Nat → FetchResult) (name : String)
    (dp : String → Option Int) (now : Int) (cfg : Config) : List Entry :=
  match attempts 0 with
  | .success doc => parseFeed dp now doc name cfg
  | _ =>
    match attempts 1 with
    | .success doc => parseFeed dp now doc name cfg
    | _ =>
      match attempts 2 with
      | .success doc => parseFeed dp now doc name cfg
      | _ => []

/-- One friend descriptor from the YAML source list; the source keeps the
feed URL in the feed field. -/
structure Friend where
  name : String
  feed : Option String := none
deriving DecidableEq, Repr

/-- JS truthiness of the feed field in the filter of fetchAllFeeds. -/
def feedTruthy : Option String → Bool
  | some s => s ≠ ""
  | none => false

/-- The URL a friend descriptor is fetched from. -/
def urlOf (fr : Friend) : String :=
  fr.feed.getD ""

/-- fetchAllFeeds from the source: friends with a truthy feed URL are
fetched concurrently, the settle-all join preserves source order, and
fulfilled results are concatenated (fetchFeed never rejects, so the
rejected arm of the flatMap is dead). The network is an oracle from URL to
attempt outcome. -/
def fetchAllFeeds (net : String → FetchResult) (friends : List Friend)
    (dp : String → Option Int) (now : Int) (cfg : Config) : List Entry :=
  ((friends.filter (fun fr => feedTruthy fr.feed)).map
    (fun fr => fetchFeed (fun _ => net (urlOf fr)) fr.name dp now cfg)).flatten

/-- Stable descending insertion by an integer key: the new element goes in
front of the first existing element whose key it matches or exceeds. -/
def insertDescBy {α : Type} (key : α → Int) (x : α) : List α → List α
  | [] => [x]
  | y :: ys => if key y ≤ key x then x :: y :: ys else y :: insertDescBy key x ys

/-- Stable descending sort by an integer key. ECMAScript sort is stable
and the comparator of processEntries subtracts millisecond time values, a
consistent comparison, so the source sort produces exactly the unique
stable non-increasing order this insertion sort computes. -/
def sortDescBy {α : Type} (key : α → Int) : List α → List α
  | [] => []
  | x :: xs => insertDescBy key x (sortDescBy key xs)

/-- slice(0, limit) of JS: a non-negative end index takes that many
elements from the front, a negative end index counts back from the end. -/
def jsSlice {α : Type} (limit : Int) (l : List α) : List α :=
  if limit < 0 then l.take (((l.length : Int) + limit).toNat)
  else l.take limit.toNat

/-- processEntries from the source: flatten the per-source lists, sort
from new to old by the stored date, and slice to the configured limit. -/
def processEntries (entries : List (List Entry)) (cfg : Config) : List Entry :=
  jsSlice cfg.limit (sortDescBy (fun e => e.date) entries.flatten)

/-- Modelled from the spec: the summary priority chain of section 4.3 as
worded — an HTML-flagged summary element anywhere in the summary array
wins, then a plain summary (the string value of the first summary
element), then description, then content; absent everything gives null. -/
def findHtmlSummary : List XVal → Option String
  | [] => none
  | .node (some t) (some attrs) :: rest =>
    if attrLookup attrs "type" = some "html" then some t else findHtmlSummary rest
  | _ :: rest => findHtmlSummary rest

/-- Modelled from the spec: the plain string value of the first element of
a field, used by the worded priority chain. -/
def plainFirst : Option (List XVal) → Option String
  | some (.str s :: _) => some s
  | some (.node (some t) _ :: _) => some t
  | _ => none

/-- Modelled from the spec: extractSummary as the spec words it, first
present field winning in the order HTML-flagged summary, plain summary,
description, content. -/
def extractSummarySpec (item : XItem) : Option String :=
  match findHtmlSummary ((item.summary).getD []) with
  | some t => some (jsTrim t)
  | none =>
    match plainFirst item.summary with
    | some s => some (jsTrim s)
    | none =>
      match plainFirst item.description with
      | some s => some (jsTrim s)
      | none =>
        match plainFirst item.content with
        | some s => some (jsTrim s)
        | none => none

/-- Modelled from the spec: collapse runs of whitespace to single spaces;
the flag records whether the previous kept character was a space. -/
def collapseWsAux : Bool → List Char → List Char
  | _, [] => []
  | prevWs, c :: cs =>
    if isWsChar c then
      if prevWs then collapseWsAux true cs
      else ' ' :: collapseWsAux true cs
    else c :: collapseWsAux false cs

/-- Modelled from the spec: drop characters through the closing script
tag, or to the end when none occurs. -/
def dropThroughScriptClose : List Char → List Char
  | [] => []
  | c :: cs =>
    if List.isPrefixOf "</script>".data (c :: cs) then (c :: cs).drop 9
    else dropThroughScriptClose cs

/-- Modelled from the spec: remove script blocks entirely — from each
opening script tag through the matching closing tag, nothing survives.
Structural recursion on a fuel bounded by the list length, so that
concrete instances evaluate; each step consumes at least one character,
so the fuel never runs out on the initial call. -/
def stripScriptsFuel : Nat → List Char → List Char
  | 0, _ => []
  | _, [] => []
  | fuel + 1, c :: cs =>
    if List.isPrefixOf "<script".data (c :: cs) then
      stripScriptsFuel fuel (dropThroughScriptClose cs)
    else c :: stripScriptsFuel fuel cs

/-- Modelled from the spec: script-block removal at full fuel. -/
def stripScripts (l : List Char) : List Char :=
  stripScriptsFuel l.length l

/-- Modelled from the spec: the full cleaning transform of section 4.3 in
order — remove script blocks entirely, strip remaining markup tags,
collapse whitespace runs to single spaces, trim. -/
def cleanTextSpec (s : String) : String :=
  jsTrim (String.mk (collapseWsAux false (stripTagsAux false (stripScripts s.data))))

/-- The items the parser iterates over for a classic-dialect document,
used to state determinism hypotheses; empty for every other shape. -/
def rssItems : XDoc → List XItem
  | .rss (some (ch :: _)) => ch.item.getD []
  | _ => []

/-- The entries the parser iterates over for a modern-dialect document,
used to state determinism hypotheses; empty for every other shape. -/
def atomItems : XDoc → List XItem
  | .feedDoc entry? => entry?.getD []
  | _ => []

/-
  Concrete fixtures for counterexamples and witnesses.
-/

/-- A concrete date oracle: the string 1000 parses to millisecond 1000,
everything else is unparsable. -/
def dpW : String → Option Int :=
  fun s => if s = "1000" then some 1000 else none

/-- The default configuration. -/
def cfg0 : Config := {}

/-- A configuration whose entry limit parsed to a negative number. -/
def cfgNeg : Config := { limit := -1 }

/-- A classic-dialect item with a parsable date, title and link. -/
def goodItem : XItem :=
  { pubDate := some [.str "1000"], title := some [.str "T"], link := some [.str "http://x"] }

/-- A classic document whose single channel holds the given items. -/
def rssDoc (items : List XItem) : XDoc :=
  .rss (some [{ item := some items }])

/-- A modern-dialect document whose feed root holds the given entries. -/
def atomDoc (items : List XItem) : XDoc :=
  .feedDoc (some items)

/-- A modern-dialect entry with a parsable date and a title; its absent
link chain falls to the placeholder. -/
def goodAtomItem : XItem :=
  { updated := some [.str "1000"], title := some [.str "T"] }

/-- A modern-dialect entry whose date field does not parse. -/
def badDateAtomItem : XItem :=
  { updated := some [.str "garbage"], title := some [.str "T"] }

/-- The entry goodItem produces. -/
def entryGood : Entry :=
  { title := "T", link := "http://x", date := 1000, summary := none, sourceName := "s" }

/-- An item carrying no date field at all. -/
def undatedItem : XItem :=
  { title := some [.str "T"] }

/-- An item whose date field does not parse. -/
def badDateItem : XItem :=
  { pubDate := some [.str "garbage"], title := some [.str "T"] }

/-- An item whose summary array holds an element node that is neither
HTML-flagged nor a string: reading it raises a TypeError. -/
def badSummaryItem : XItem :=
  { pubDate := some [.str "1000"], summary := some [.node none none] }

/-- An attempt oracle whose first attempt times out and whose later
attempts would succeed with a one-item feed. -/
def attemptsCex : Nat → FetchResult :=
  fun n => match n with
  | 0 => .timeout
  | _ => .success (rssDoc [goodItem])

/-- An item whose summary array has a plain string first and an
HTML-flagged element second. -/
def summaryCexItem : XItem :=
  { summary := some [.str "plain", .node (some "rich") (some [("type", "html")])] }

/-- A 101 character markup-free text, one over the default limit. -/
def aLong : String :=
  String.mk (List.replicate 101 'a')

/-- Two entries with distinct dates for the aggregation counterexample. -/
def entryA : Entry := { title := "A", link := "#", date := 2, summary := none, sourceName := "s" }

def entryB : Entry := { title := "B", link := "#", date := 1, summary := none, sourceName := "s" }

/-
  Helper lemmas.
-/

theorem mem_insertDescBy {α : Type} (key : α → Int) (x : α) (l : List α) (z : α) :
    z ∈ insertDescBy key x l ↔ z = x ∨ z ∈ l := by
  induction l with
  | nil => simp [insertDescBy]
  | cons y ys ih =>
    simp only [insertDescBy]
    split
    · simp [or_comm, or_assoc, or_left_comm]
    · simp only [List.mem_cons, ih]
      tauto

theorem mem_sortDescBy {α : Type} (key : α → Int) (l : List α) (z : α) :
    z ∈ sortDescBy key l ↔ z ∈ l := by
  induction l with
  | nil => simp [sortDescBy]
  | cons x xs ih =>
    simp only [sortDescBy, mem_insertDescBy, List.mem_cons, ih]

theorem pairwise_insertDescBy {α : Type} (key : α → Int) (x : α) (l : List α)
    (h : List.Pairwise (fun a b => key b ≤ key a) l) :
    List.Pairwise (fun a b => key b ≤ key a) (insertDescBy key x l) := by
  induction l with
  | nil => simp [insertDescBy]
  | cons y ys ih =>
    rcases List.pairwise_cons.mp h with ⟨hy, hys⟩
    simp only [insertDescBy]
    split
    · rename_i hle
      refine List.pairwise_cons.mpr ⟨?_, h⟩
      intro z hz
      rcases List.mem_cons.mp hz with rfl | hz
      · exact hle
      · exact le_trans (hy z hz) hle
    · rename_i hlt
      refine List.pairwise_cons.mpr ⟨?_, ih hys⟩
      intro z hz
      rcases (mem_insertDescBy key x ys z).mp hz with rfl | hz
      · omega
      · exact hy z hz

theorem pairwise_sortDescBy {α : Type} (key : α → Int) (l : List α) :
    List.Pairwise (fun a b => key b ≤ key a) (sortDescBy key l) := by
  induction l with
  | nil => simp [sortDescBy]
  | cons x xs ih => exact pairwise_insertDescBy key x _ ih

theorem length_insertDescBy {α : Type} (key : α → Int) (x : α) (l : List α) :
    (insertDescBy key x l).length = l.length + 1 := by
  induction l with
  | nil => simp [insertDescBy]
  | cons y ys ih =>
    simp only [insertDescBy]
    split
    · simp
    · simp [ih]

theorem length_sortDescBy {α : Type} (key : α → Int) (l : List α) :
    (sortDescBy key l).length = l.length := by
  induction l with
  | nil => rfl
  | cons x xs ih => simp [sortDescBy, length_insertDescBy, ih]

theorem insertDescBy_map {α β : Type} (f : α → β) (key : β → Int) (x : α) (l : List α) :
    insertDescBy key (f x) (l.map f) = (insertDescBy (fun a => key (f a)) x l).map f := by
  induction l with
  | nil => simp [insertDescBy]
  | cons y ys ih =>
    simp only [List.map_cons, insertDescBy]
    split
    · simp
    · simp [ih]

theorem sortDescBy_map {α β : Type} (f : α → β) (key : β → Int) (l : List α) :
    sortDescBy key (l.map f) = (sortDescBy (fun a => key (f a)) l).map f := by
  induction l with
  | nil => rfl
  | cons x xs ih => simp [sortDescBy, ih, insertDescBy_map]

theorem insertDescBy_stable {α : Type} (key : α → Int) (idx : α → Nat) (x : α) (l : List α)
    (hl : List.Pairwise (fun a b => key b ≤ key a ∧ (key a = key b → idx a < idx b)) l)
    (hx : ∀ y ∈ l, idx x < idx y) :
    List.Pairwise (fun a b => key b ≤ key a ∧ (key a = key b → idx a < idx b))
      (insertDescBy key x l) := by
  induction l with
  | nil => simp [insertDescBy]
  | cons y ys ih =>
    rcases List.pairwise_cons.mp hl with ⟨hy, hys⟩
    simp only [insertDescBy]
    split
    · rename_i hle
      refine List.pairwise_cons.mpr ⟨?_, hl⟩
      intro z hz
      rcases List.mem_cons.mp hz with rfl | hz
      · exact ⟨hle, fun _ => hx z (by simp)⟩
      · exact ⟨le_trans (hy z hz).1 hle, fun _ => hx z (by simp [hz])⟩
    · rename_i hlt
      refine List.pairwise_cons.mpr ⟨?_, ih hys (fun z hz => hx z (by simp [hz]))⟩
      intro z hz
      rcases (mem_insertDescBy key x ys z).mp hz with rfl | hz
      · exact ⟨by omega, fun he => absurd he (by omega)⟩
      · exact hy z hz

theorem sortDescBy_stable {α : Type} (key : α → Int) (idx : α → Nat) (l : List α)
    (h : List.Pairwise (fun a b => idx a < idx b) l) :
    List.Pairwise (fun a b => key b ≤ key a ∧ (key a = key b → idx a < idx b))
      (sortDescBy key l) := by
  induction l with
  | nil => simp [sortDescBy]
  | cons x xs ih =>
    rcases List.pairwise_cons.mp h with ⟨hx, hxs⟩
    exact insertDescBy_stable key idx x _ (ih hxs)
      (fun y hy => hx y ((mem_sortDescBy key xs y).mp hy))

theorem le_fst_of_mem_enumFrom {α : Type} (n : Nat) (l : List α) :
    ∀ p ∈ List.enumFrom n l, n ≤ p.1 := by
  induction l generalizing n with
  | nil => simp [List.enumFrom]
  | cons x xs ih =>
    intro p hp
    rcases List.mem_cons.mp hp with rfl | hp
    · exact le_refl n
    · exact Nat.le_of_succ_le (ih (n + 1) p hp)

theorem pairwise_fst_enumFrom {α : Type} (n : Nat) (l : List α) :
    List.Pairwise (fun p q : Nat × α => p.1 < q.1) (List.enumFrom n l) := by
  induction l generalizing n with
  | nil => simp [List.enumFrom]
  | cons x xs ih =>
    refine List.pairwise_cons.mpr ⟨?_, ih (n + 1)⟩
    intro q hq
    exact Nat.lt_of_succ_le (le_fst_of_mem_enumFrom (n + 1) xs q hq)

theorem pairwise_fst_enum {α : Type} (l : List α) :
    List.Pairwise (fun p q : Nat × α => p.1 < q.1) l.enum :=
  pairwise_fst_enumFrom 0 l

theorem jsSlice_sublist {α : Type} (limit : Int) (l : List α) :
    (jsSlice limit l).Sublist l := by
  unfold jsSlice
  split
  · exact List.take_sublist _ _
  · exact List.take_sublist _ _

theorem jsSlice_length_le {α : Type} (limit : Int) (l : List α) (h : 0 ≤ limit) :
    ((jsSlice limit l).length : Int) ≤ limit := by
  unfold jsSlice
  rw [if_neg (by omega)]
  have h1 : (l.take limit.toNat).length ≤ limit.toNat := by
    simp [List.length_take]
  have h2 : (limit.toNat : Int) = limit := Int.toNat_of_nonneg h
  omega

theorem collectEntries_mem (f : XItem → Except JsErr (Option Entry)) :
    ∀ (items : List XItem) (l : List Entry) (e : Entry),
      collectEntries f items = .ok l → e ∈ l → ∃ i ∈ items, f i = .ok (some e) := by
  intro items
  induction items with
  | nil =>
    intro l e h he
    simp only [collectEntries, Except.ok.injEq] at h
    subst h
    simp at he
  | cons i is ih =>
    intro l e h he
    unfold collectEntries at h
    split at h
    · exact absurd h (by simp)
    · rcases ih l e h he with ⟨j, hj, hfj⟩
      exact ⟨j, by simp [hj], hfj⟩
    · rename_i x hx
      split at h
      · exact absurd h (by simp)
      · rename_i l2 hl2
        rcases Except.ok.inj h with rfl
        rcases List.mem_cons.mp he with rfl | he2
        · exact ⟨i, by simp, hx⟩
        · rcases ih l2 e hl2 he2 with ⟨j, hj, hfj⟩
          exact ⟨j, by simp [hj], hfj⟩

theorem collectEntries_skip (f : XItem → Except JsErr (Option Entry))
    (bad : XItem) (hbad : f bad = .ok none) :
    ∀ (pre post : List XItem),
      collectEntries f (pre ++ bad :: post) = collectEntries f (pre ++ post) := by
  intro pre post
  induction pre with
  | nil => simp [collectEntries, hbad]
  | cons i is ih =>
    simp only [List.cons_append, collectEntries, List.append_eq, ih]

theorem collectEntries_error (f : XItem → Except JsErr (Option Entry))
    (bad : XItem) (er : JsErr) (hbad : f bad = .error er) :
    ∀ (items : List XItem), bad ∈ items →
      ∃ er2, collectEntries f items = .error er2 := by
  intro items
  induction items with
  | nil => simp
  | cons i is ih =>
    intro hmem
    unfold collectEntries
    rcases List.mem_cons.mp hmem with rfl | hmem2
    · rw [hbad]
      exact ⟨er, rfl⟩
    · rcases hfi : f i with e | o
      · exact ⟨e, rfl⟩
      · rcases ih hmem2 with ⟨er2, her2⟩
        rcases o with _ | x
        · exact ⟨er2, her2⟩
        · rw [her2]
          exact ⟨er2, rfl⟩

theorem collectEntries_congr (f g : XItem → Except JsErr (Option Entry)) :
    ∀ (items : List XItem), (∀ i ∈ items, f i = g i) →
      collectEntries f items = collectEntries g items := by
  intro items
  induction items with
  | nil => intro _; rfl
  | cons i is ih =>
    intro h
    have hi : f i = g i := h i (by simp)
    have his := ih (fun j hj => h j (by simp [hj]))
    simp only [collectEntries, hi, his]

theorem rssItemEntry_date (dp : String → Option Int) (now timeLimit : Int) (cfg : Config)
    (name : String) (item : XItem) (e : Entry)
    (h : rssItemEntry dp now timeLimit cfg name item = .ok (some e)) :
    timeLimit < e.date := by
  unfold rssItemEntry at h
  split at h
  · exact absurd h (by simp)
  · rename_i t hres
    split at h
    · rename_i ht
      split at h
      · exact absurd h (by simp)
      · split at h
        · exact absurd h (by simp)
        · split at h
          · exact absurd h (by simp)
          · rcases Option.some.inj (Except.ok.inj h) with rfl
            exact ht
    · exact absurd h (by simp)

theorem atomItemEntry_date (dp : String → Option Int) (now timeLimit : Int) (cfg : Config)
    (name : String) (item : XItem) (e : Entry)
    (h : atomItemEntry dp now timeLimit cfg name item = .ok (some e)) :
    timeLimit < e.date := by
  unfold atomItemEntry at h
  split at h
  · exact absurd h (by simp)
  · rename_i t hres
    split at h
    · rename_i ht
      split at h
      · exact absurd h (by simp)
      · split at h
        · exact absurd h (by simp)
        · split at h
          · exact absurd h (by simp)
          · rcases Option.some.inj (Except.ok.inj h) with rfl
            exact ht
    · exact absurd h (by simp)

theorem mem_parseFeed_date (dp : String → Option Int) (now : Int) (doc : XDoc)
    (name : String) (cfg : Config) (e : Entry)
    (he : e ∈ parseFeed dp now doc name cfg) :
    now - cfg.daysLimit * 86400000 < e.date := by
  rcases doc with _ | ch? | en? | _
  · simp [parseFeed] at he
  · rcases ch? with _ | channels
    · simp [parseFeed] at he
    · rcases channels with _ | ⟨ch, rest⟩
      · simp [parseFeed] at he
      · simp only [parseFeed, List.head?] at he
        rcases hc : collectEntries (rssItemEntry dp now
            (now - cfg.daysLimit * 86400000) cfg name) (ch.item.getD []) with er | l
        · rw [hc] at he; simp at he
        · rw [hc] at he
          rcases collectEntries_mem _ _ _ _ hc he with ⟨i, _, hfi⟩
          exact rssItemEntry_date _ _ _ _ _ _ _ hfi
  · simp only [parseFeed] at he
    rcases hc : collectEntries (atomItemEntry dp now
        (now - cfg.daysLimit * 86400000) cfg name) (en?.getD []) with er | l
    · rw [hc] at he; simp at he
    · rw [hc] at he
      rcases collectEntries_mem _ _ _ _ hc he with ⟨i, _, hfi⟩
      exact atomItemEntry_date _ _ _ _ _ _ _ hfi
  · simp [parseFeed] at he

theorem rssItemEntry_spec (dp : String → Option Int) (now timeLimit : Int) (cfg : Config)
    (name : String) (item : XItem) (e : Entry)
    (h : rssItemEntry dp now timeLimit cfg name item = .ok (some e)) :
    resolveDateRss dp now item = some e.date
  ∧ jsTrimOr (xFirst item.title) placeholderTitle = .ok e.title
  ∧ jsTrimOr (xFirst item.link) "#" = .ok e.link
  ∧ e.sourceName = name := by
  unfold rssItemEntry at h
  split at h
  · exact absurd h (by simp)
  · rename_i t hres
    split at h
    · split at h
      · exact absurd h (by simp)
      · split at h
        · exact absurd h (by simp)
        · rename_i ti hti
          split at h
          · exact absurd h (by simp)
          · rename_i li hli
            rcases Option.some.inj (Except.ok.inj h) with rfl
            exact ⟨hres, hti, hli, rfl⟩
    · exact absurd h (by simp)

theorem atomItemEntry_spec (dp : String → Option Int) (now timeLimit : Int) (cfg : Config)
    (name : String) (item : XItem) (e : Entry)
    (h : atomItemEntry dp now timeLimit cfg name item = .ok (some e)) :
    resolveDateAtom dp now item = some e.date
  ∧ atomLink item.link = .ok e.link
  ∧ atomTitle item.title = .ok e.title
  ∧ e.sourceName = name := by
  unfold atomItemEntry at h
  split at h
  · exact absurd h (by simp)
  · rename_i t hres
    split at h
    · split at h
      · exact absurd h (by simp)
      · rename_i li hli
        split at h
        · exact absurd h (by simp)
        · split at h
          · exact absurd h (by simp)
          · rename_i ti hti
            rcases Option.some.inj (Except.ok.inj h) with rfl
            exact ⟨hres, hli, hti, rfl⟩
    · exact absurd h (by simp)

theorem parseFeed_rssDoc (dp : String → Option Int) (now : Int) (items : List XItem)
    (name : String) (cfg : Config) :
    parseFeed dp now (rssDoc items) name cfg
      = match collectEntries (rssItemEntry dp now
          (now - cfg.daysLimit * 86400000) cfg name) items with
        | .ok l => l
        | .error _ => [] := rfl

theorem parseFeed_atomDoc (dp : String → Option Int) (now : Int) (items : List XItem)
    (name : String) (cfg : Config) :
    parseFeed dp now (atomDoc items) name cfg
      = match collectEntries (atomItemEntry dp now
          (now - cfg.daysLimit * 86400000) cfg name) items with
        | .ok l => l
        | .error _ => [] := rfl

theorem fetchFeed_const_failed (r : FetchResult) (name : String)
    (dp : String → Option Int) (now : Int) (cfg : Config) (h : r.failed = true) :
    fetchFeed (fun _ => r) name dp now cfg = [] := by
  unfold fetchFeed
  rcases r with _ | st | doc
  · rfl
  · rfl
  · simp [FetchResult.failed] at h

theorem rssItemEntry_time_congr (dp : String → Option Int) (now1 now2 tl1 tl2 : Int)
    (cfg : Config) (name : String) (item : XItem)
    (hres : resolveDateRss dp now1 item = resolveDateRss dp now2 item)
    (hcut : ∀ t, resolveDateRss dp now1 item = some t → (tl1 < t ↔ tl2 < t)) :
    rssItemEntry dp now1 tl1 cfg name item = rssItemEntry dp now2 tl2 cfg name item := by
  unfold rssItemEntry
  rw [← hres]
  split
  · rfl
  · rename_i t hr
    have hiff := hcut t hr
    by_cases h1 : tl1 < t
    · rw [if_pos h1, if_pos (hiff.mp h1)]
    · rw [if_neg h1, if_neg (fun h2 => h1 (hiff.mpr h2))]

theorem atomItemEntry_time_congr (dp : String → Option Int) (now1 now2 tl1 tl2 : Int)
    (cfg : Config) (name : String) (item : XItem)
    (hres : resolveDateAtom dp now1 item = resolveDateAtom dp now2 item)
    (hcut : ∀ t, resolveDateAtom dp now1 item = some t → (tl1 < t ↔ tl2 < t)) :
    atomItemEntry dp now1 tl1 cfg name item = atomItemEntry dp now2 tl2 cfg name item := by
  unfold atomItemEntry
  rw [← hres]
  split
  · rfl
  · rename_i t hr
    have hiff := hcut t hr
    by_cases h1 : tl1 < t
    · rw [if_pos h1, if_pos (hiff.mp h1)]
    · rw [if_neg h1, if_neg (fun h2 => h1 (hiff.mpr h2))]

/-
  Claim theorems.
-/

/-- C1, counterexample: the claim that fetchFeed retries a failed request
with the failure converting to an empty contribution only after retries
exhaust is false. With the first attempt timing out and every later
attempt succeeding, fetchFeed returns the empty contribution while the
worded retry policy would return the feed entries. -/
theorem fetchFeed_retry_refuted :
    fetchFeed attemptsCex "s" dpW 0 cfg0 = []
  ∧ fetchFeedRetrySpec attemptsCex "s" dpW 0 cfg0 = [entryGood]
  ∧ fetchFeed attemptsCex "s" dpW 0 cfg0 ≠ fetchFeedRetrySpec attemptsCex "s" dpW 0 cfg0 :=
  ⟨by decide, by decide, by decide⟩

/-- C1, amended: fetchFeed makes exactly one attempt — its result depends
only on the outcome of attempt zero — and a timeout or non-success status
on that single attempt is caught inside fetchFeed and converted into an
empty contribution for the source; no retries occur. -/
theorem fetchFeed_single_attempt (a b : Nat → FetchResult) (name : String)
    (dp : String → Option Int) (now : Int) (cfg : Config) :
    (a 0 = b 0 → fetchFeed a name dp now cfg = fetchFeed b name dp now cfg)
  ∧ ((a 0).failed = true → fetchFeed a name dp now cfg = []) := by
  constructor
  · intro h
    unfold fetchFeed
    rw [h]
  · intro h
    unfold fetchFeed
    rcases ha : a 0 with _ | st | doc
    · rfl
    · rfl
    · rw [ha] at h
      simp [FetchResult.failed] at h

theorem fetchFeed_single_attempt_witness :
    fetchFeed attemptsCex "s" dpW 0 cfg0 = [] :=
  (fetchFeed_single_attempt attemptsCex attemptsCex "s" dpW 0 cfg0).2 (by decide)

/-- C2, counterexample: an item whose date field is present but
unparsable is not given the processing time as its timestamp — the item
is discarded outright (the invalid time value fails the recency
comparison) — whereas the same shape with the date field omitted does
default to the processing time. -/
theorem unparsable_date_not_defaulted :
    parseFeed dpW 5000 (rssDoc [badDateItem]) "s" cfg0 = []
  ∧ parseFeed dpW 5000 (rssDoc [undatedItem]) "s" cfg0
      = [{ title := "T", link := "#", date := 5000, summary := none, sourceName := "s" }] :=
  ⟨by decide, by decide⟩

/-- C2, amended: for every entry either dialect produces, an omitted date
field defaults the timestamp to the processing time, an absent title
defaults to the placeholder, and an absent link defaults to the hash
placeholder; an item whose date field is present but resolves as invalid
produces no entry at all. -/
theorem entry_field_defaults (dp : String → Option Int) (now timeLimit : Int)
    (cfg : Config) (name : String) (item : XItem) (e : Entry) :
    (rssItemEntry dp now timeLimit cfg name item = .ok (some e) →
       (item.pubDate = none → item.date = none → e.date = now)
     ∧ (item.title = none → e.title = placeholderTitle)
     ∧ (item.link = none → e.link = "#"))
  ∧ (atomItemEntry dp now timeLimit cfg name item = .ok (some e) →
       (item.updated = none → item.published = none → e.date = now)
     ∧ (item.title = none → e.title = placeholderTitle)
     ∧ (item.link = none → e.link = "#"))
  ∧ (resolveDateRss dp now item = none →
       rssItemEntry dp now timeLimit cfg name item = .ok none)
  ∧ (resolveDateAtom dp now item = none →
       atomItemEntry dp now timeLimit cfg name item = .ok none) := by
  refine ⟨?_, ?_, ?_, ?_⟩
  · intro h
    rcases rssItemEntry_spec dp now timeLimit cfg name item e h with ⟨hres, hti, hli, _⟩
    refine ⟨?_, ?_, ?_⟩
    · intro hpd hd
      rw [resolveDateRss, hpd, hd] at hres
      simpa [xFirst, jsOr, resolveDate] using hres.symm
    · intro ht
      rw [ht] at hti
      simpa [xFirst, jsTrimOr] using (Except.ok.inj hti).symm
    · intro hl
      rw [hl] at hli
      simpa [xFirst, jsTrimOr] using (Except.ok.inj hli).symm
  · intro h
    rcases atomItemEntry_spec dp now timeLimit cfg name item e h with ⟨hres, hli, hti, _⟩
    refine ⟨?_, ?_, ?_⟩
    · intro hup hpub
      rw [resolveDateAtom, hup, hpub] at hres
      simpa [xFirst, jsOr, resolveDate] using hres.symm
    · intro ht
      rw [ht] at hti
      simpa [xFirst, atomTitle] using (Except.ok.inj hti).symm
    · intro hl
      rw [hl] at hli
      simpa [atomLink, atomAltLinkHref, atomFirstLinkHref, xFirst, strTruthy]
        using (Except.ok.inj hli).symm
  · intro h
    unfold rssItemEntry
    rw [h]
  · intro h
    unfold atomItemEntry
    rw [h]

theorem entry_field_defaults_witness :
    (⟨placeholderTitle, "#", 5000, none, "s"⟩ : Entry).date = 5000
  ∧ (⟨placeholderTitle, "#", 5000, none, "s"⟩ : Entry).title = placeholderTitle
  ∧ (⟨placeholderTitle, "#", 5000, none, "s"⟩ : Entry).link = "#" := by
  have h := (entry_field_defaults dpW 5000 0 cfg0 "s"
      ⟨none, none, none, none, none, none, none, none, none⟩
      ⟨placeholderTitle, "#", 5000, none, "s"⟩).1 (by decide)
  exact ⟨h.1 rfl rfl, h.2.1 rfl, h.2.2 rfl⟩

/-- C3, counterexample: a structural anomaly confined to a single item
does not merely skip that item — here an item whose summary array holds a
non-string element raises while being read, and the whole feed degrades
to the empty sequence, losing the perfectly good sibling item that alone
would have produced an entry. -/
theorem item_anomaly_kills_feed :
    parseFeed dpW 0 (rssDoc [goodItem, badSummaryItem]) "s" cfg0 = []
  ∧ parseFeed dpW 0 (rssDoc [goodItem]) "s" cfg0 = [entryGood] :=
  ⟨by decide, by decide⟩

/-- C3, amended: in either dialect, an item whose processing yields no
entry without raising (notably one whose date is malformed, since the
invalid time value fails the recency comparison) is skipped while every
other item of the feed is still produced; but an item whose processing
raises degrades the whole feed contribution to the empty sequence; and a
parse-level error likewise yields the empty sequence, never a
request-level error. -/
theorem parse_failure_semantics (dp : String → Option Int) (now : Int) (cfg : Config)
    (name : String) (pre post : List XItem) (bad : XItem) :
    (rssItemEntry dp now (now - cfg.daysLimit * 86400000) cfg name bad = .ok none →
       parseFeed dp now (rssDoc (pre ++ bad :: post)) name cfg
         = parseFeed dp now (rssDoc (pre ++ post)) name cfg)
  ∧ (∀ er, rssItemEntry dp now (now - cfg.daysLimit * 86400000) cfg name bad = .error er →
       parseFeed dp now (rssDoc (pre ++ bad :: post)) name cfg = [])
  ∧ (atomItemEntry dp now (now - cfg.daysLimit * 86400000) cfg name bad = .ok none →
       parseFeed dp now (atomDoc (pre ++ bad :: post)) name cfg
         = parseFeed dp now (atomDoc (pre ++ post)) name cfg)
  ∧ (∀ er, atomItemEntry dp now (now - cfg.daysLimit * 86400000) cfg name bad = .error er →
       parseFeed dp now (atomDoc (pre ++ bad :: post)) name cfg = [])
  ∧ parseFeed dp now XDoc.err name cfg = [] := by
  refine ⟨?_, ?_, ?_, ?_, rfl⟩
  · intro hbad
    rw [parseFeed_rssDoc, parseFeed_rssDoc, collectEntries_skip _ _ hbad]
  · intro er hbad
    rw [parseFeed_rssDoc]
    rcases collectEntries_error _ _ _ hbad (pre ++ bad :: post) (by simp) with ⟨er2, he⟩
    rw [he]
  · intro hbad
    rw [parseFeed_atomDoc, parseFeed_atomDoc, collectEntries_skip _ _ hbad]
  · intro er hbad
    rw [parseFeed_atomDoc]
    rcases collectEntries_error _ _ _ hbad (pre ++ bad :: post) (by simp) with ⟨er2, he⟩
    rw [he]

theorem parse_failure_semantics_witness :
    (parseFeed dpW 0 (rssDoc ([goodItem] ++ badDateItem :: [])) "s" cfg0
       = parseFeed dpW 0 (rssDoc ([goodItem] ++ [])) "s" cfg0)
  ∧ (parseFeed dpW 0 (atomDoc ([goodAtomItem] ++ badDateAtomItem :: [])) "s" cfg0
       = parseFeed dpW 0 (atomDoc ([goodAtomItem] ++ [])) "s" cfg0) :=
  ⟨(parse_failure_semantics dpW 0 cfg0 "s" [goodItem] [] badDateItem).1 (by decide),
   (parse_failure_semantics dpW 0 cfg0 "s" [goodAtomItem] [] badDateAtomItem).2.2.1 (by decide)⟩

/-- C4, counterexample: the HTML-flagged summary element does not win
over a plain summary: with the summary array holding a plain string first
and an HTML-flagged element second, the source returns the plain string,
while the worded priority chain selects the HTML element text. -/
theorem summary_priority_refuted :
    extractSummary summaryCexItem = .ok (some "plain")
  ∧ extractSummarySpec summaryCexItem = some "rich"
  ∧ extractSummary summaryCexItem ≠ .ok (extractSummarySpec summaryCexItem) :=
  ⟨by decide, by decide, by decide⟩

/-- C4, amended: only the first element of the summary array is
consulted — when it is HTML-flagged its text is the result (trimmed when
truthy, null otherwise), when it is a plain string that string is
trimmed; when summary is absent a string first element of description,
then of content, wins trimmed; with none of the fields present the
result is null. -/
theorem summary_chain_amended (item : XItem) :
    (∀ t a rest, item.summary = some (.node t (some a) :: rest) →
       attrLookup a "type" = some "html" →
       extractSummary item
         = .ok (match t with
                | some s => if s = "" then none else some (jsTrim s)
                | none => none))
  ∧ (∀ s rest, item.summary = some (.str s :: rest) →
       extractSummary item = .ok (some (jsTrim s)))
  ∧ (∀ s rest, item.summary = none → item.description = some (.str s :: rest) →
       extractSummary item = .ok (some (jsTrim s)))
  ∧ (∀ s rest, item.summary = none → item.description = none →
       item.content = some (.str s :: rest) →
       extractSummary item = .ok (some (jsTrim s)))
  ∧ (item.summary = none → item.description = none → item.content = none →
       extractSummary item = .ok none) := by
  refine ⟨?_, ?_, ?_, ?_, ?_⟩
  · intro t a rest hsum htype
    simp only [extractSummary, hsum]
    rw [if_pos htype]
  · intro s rest hsum
    simp only [extractSummary, hsum]
  · intro s rest hsum hdesc
    simp only [extractSummary, hsum, hdesc]
  · intro s rest hsum hdesc hcont
    simp only [extractSummary, hsum, hdesc, hcont]
  · intro hsum hdesc hcont
    simp only [extractSummary, hsum, hdesc, hcont]

theorem summary_chain_amended_witness :
    extractSummary { summary := some [XVal.node (some "rich") (some [("type", "html")])] }
      = .ok (some "rich") := by
  have h := (summary_chain_amended
      { summary := some [XVal.node (some "rich") (some [("type", "html")])] }).1
      (some "rich") [("type", "html")] [] rfl (by decide)
  rw [h]
  decide

/-- C5, counterexample: the cleaning transform of the source does not
remove script blocks — the script body text reaches the excerpt — and
neither collapses whitespace runs nor trims, all contrary to the worded
transform. -/
theorem clean_transform_refuted :
    truncateSummary (some "<script>alert(1)</script>") 100 = some "alert(1)"
  ∧ cleanTextSpec "<script>alert(1)</script>" = ""
  ∧ truncateSummary (some " a  b ") 100 = some " a  b "
  ∧ cleanTextSpec " a  b " = "a b" :=
  ⟨by decide, by decide, by decide, by decide⟩

/-- C5, amended: the only cleaning applied to a selected source text is
the single tag-stripping pass — within the limit the produced excerpt is
exactly the stripped text — and that pass keeps script text content and
leaves whitespace uncollapsed and untrimmed. -/
theorem clean_transform_amended (s : String) (limit : Int) :
    (s ≠ "" → 0 < limit → ((stripTags s).length : Int) ≤ limit →
       truncateSummary (some s) limit = some (stripTags s))
  ∧ stripTags "<script>x</script>y" = "xy"
  ∧ stripTags " a  b " = " a  b " := by
  refine ⟨?_, by decide, by decide⟩
  intro hs hl hle
  simp only [truncateSummary]
  rw [if_neg hs, if_neg (by omega : ¬ limit ≤ 0), if_pos hle]

theorem clean_transform_amended_witness :
    truncateSummary (some "hi") 10 = some (stripTags "hi") :=
  (clean_transform_amended "hi" 10).1 (by decide) (by decide) (by decide)

/-- C6, counterexample: with the limit at its default 100 and a 101
character markup-free text, the produced excerpt is the text cut at 100
characters with the six-dot ellipsis appended, so its length is 106 —
the excerpt is not bounded by the configured character limit. -/
theorem excerpt_bound_refuted :
    truncateSummary (some aLong) 100
      = some (String.mk (aLong.data.take 100) ++ "......")
  ∧ (((truncateSummary (some aLong) 100).getD "").length : Int) = 106
  ∧ ¬ (((truncateSummary (some aLong) 100).getD "").length : Int) ≤ 100 :=
  ⟨by decide, by decide, by decide⟩

/-- C6, amended: a non-positive limit (in particular zero) makes the
summary null regardless of content, as do a missing and an empty source
text; with a positive limit, a cleaned text within the limit is returned
unchanged, and a cleaned text exceeding the limit is cut at exactly the
limit with the ellipsis marker appended, the excerpt length being the
limit plus six rather than bounded by the limit. -/
theorem truncation_amended (s : String) (limit : Int) :
    (limit ≤ 0 → truncateSummary (some s) limit = none)
  ∧ truncateSummary none limit = none
  ∧ truncateSummary (some "") limit = none
  ∧ (0 < limit → s ≠ "" → ((stripTags s).length : Int) ≤ limit →
       truncateSummary (some s) limit = some (stripTags s))
  ∧ (0 < limit → s ≠ "" → limit < ((stripTags s).length : Int) →
       truncateSummary (some s) limit
         = some (String.mk ((stripTags s).data.take limit.toNat) ++ "......")
     ∧ (((truncateSummary (some s) limit).getD "").length : Int) = limit + 6) := by
  refine ⟨?_, rfl, ?_, ?_, ?_⟩
  · intro h
    by_cases hs : s = ""
    · simp [truncateSummary, hs]
    · simp [truncateSummary, hs, h]
  · simp [truncateSummary]
  · intro hl hs hle
    simp only [truncateSummary]
    rw [if_neg hs, if_neg (by omega : ¬ limit ≤ 0), if_pos hle]
  · intro hl hs hgt
    have heq : truncateSummary (some s) limit
        = some (String.mk ((stripTags s).data.take limit.toNat) ++ "......") := by
      simp only [truncateSummary]
      rw [if_neg hs, if_neg (by omega : ¬ limit ≤ 0), if_neg (by omega : ¬ ((stripTags s).length : Int) ≤ limit)]
    refine ⟨heq, ?_⟩
    rw [heq]
    have h1 : (String.mk ((stripTags s).data.take limit.toNat) ++ "......").length
        = ((stripTags s).data.take limit.toNat).length + 6 := by
      rw [String.length_append]
      rfl
    have h2 : ((stripTags s).data.take limit.toNat).length
        = min limit.toNat (stripTags s).data.length := List.length_take _ _
    have h3 : (stripTags s).length = (stripTags s).data.length := rfl
    have h4 : (limit.toNat : Int) = limit := Int.toNat_of_nonneg (by omega)
    simp only [Option.getD_some]
    omega

theorem truncation_amended_witness :
    truncateSummary (some "abcdefgh") 5
      = some (String.mk ((stripTags "abcdefgh").data.take (5 : Int).toNat) ++ "......")
  ∧ (((truncateSummary (some "abcdefgh") 5).getD "").length : Int) = 5 + 6 :=
  (truncation_amended "abcdefgh" 5).2.2.2.2 (by decide) (by decide) (by decide)

/-- C7: the recency filter is applied during parsing: an item whose
resolved timestamp is strictly older than the cutoff produces no entry
(any timestamp at or below the cutoff is discarded, in either dialect),
and every entry the parser outputs has a timestamp strictly greater
than, hence at least, the cutoff of now minus the configured number of
days. -/
theorem recency_filter_holds (dp : String → Option Int) (now : Int) (doc : XDoc)
    (name : String) (cfg : Config) :
    (∀ e ∈ parseFeed dp now doc name cfg,
       now - cfg.daysLimit * 86400000 ≤ e.date
     ∧ now - cfg.daysLimit * 86400000 < e.date)
  ∧ (∀ item t, resolveDateRss dp now item = some t →
       t < now - cfg.daysLimit * 86400000 →
       rssItemEntry dp now (now - cfg.daysLimit * 86400000) cfg name item = .ok none)
  ∧ (∀ item t, resolveDateAtom dp now item = some t →
       t < now - cfg.daysLimit * 86400000 →
       atomItemEntry dp now (now - cfg.daysLimit * 86400000) cfg name item = .ok none) := by
  refine ⟨?_, ?_, ?_⟩
  · intro e he
    have h := mem_parseFeed_date dp now doc name cfg e he
    exact ⟨le_of_lt h, h⟩
  · intro item t hres hlt
    simp only [rssItemEntry, hres]
    rw [if_neg (by omega : ¬ now - cfg.daysLimit * 86400000 < t)]
  · intro item t hres hlt
    simp only [atomItemEntry, hres]
    rw [if_neg (by omega : ¬ now - cfg.daysLimit * 86400000 < t)]

theorem recency_filter_holds_witness :
    (0 : Int) - cfg0.daysLimit * 86400000 ≤ entryGood.date
  ∧ (0 : Int) - cfg0.daysLimit * 86400000 < entryGood.date :=
  (recency_filter_holds dpW 0 (rssDoc [goodItem]) "s" cfg0).1 entryGood (by decide)

/-- C8, counterexample: the configured limit is parsed from an
environment string and can be negative; slice with a negative end index
then keeps all but that many entries from the end, so the output length
is not bounded by the configured limit. -/
theorem negative_limit_refuted :
    processEntries [[entryA, entryB]] cfgNeg = [entryA]
  ∧ ¬ (((processEntries [[entryA, entryB]] cfgNeg).length : Int) ≤ cfgNeg.limit) :=
  ⟨by decide, by decide⟩

/-- C8, amended: the aggregated output is sorted non-increasing by
timestamp; for every non-negative configured limit its length is at most
the limit (a negative limit instead drops that many entries from the
end); and the output is the slice of the stable descending sort of the
position-indexed flattened input, whose consecutive elements have
non-increasing timestamps and, on equal timestamps, increasing input
positions — ties are broken by stable input order. -/
theorem aggregate_sorted_capped (entries : List (List Entry)) (cfg : Config) :
    List.Pairwise (fun a b => b.date ≤ a.date) (processEntries entries cfg)
  ∧ (0 ≤ cfg.limit → ((processEntries entries cfg).length : Int) ≤ cfg.limit)
  ∧ processEntries entries cfg
      = jsSlice cfg.limit
          ((sortDescBy (fun p : Nat × Entry => p.2.date) entries.flatten.enum).map Prod.snd)
  ∧ List.Pairwise (fun p q : Nat × Entry =>
        q.2.date ≤ p.2.date ∧ (p.2.date = q.2.date → p.1 < q.1))
      (sortDescBy (fun p : Nat × Entry => p.2.date) entries.flatten.enum) := by
  refine ⟨?_, ?_, ?_, ?_⟩
  · have hs := pairwise_sortDescBy (fun e : Entry => e.date) entries.flatten
    exact List.Pairwise.sublist (jsSlice_sublist cfg.limit _) hs
  · intro h
    exact jsSlice_length_le cfg.limit _ h
  · unfold processEntries
    congr 1
    calc sortDescBy (fun e : Entry => e.date) entries.flatten
        = sortDescBy (fun e : Entry => e.date) (entries.flatten.enum.map Prod.snd) := by
          rw [List.enum_map_snd]
      _ = (sortDescBy (fun p : Nat × Entry => p.2.date) entries.flatten.enum).map Prod.snd :=
          sortDescBy_map Prod.snd _ _
  · exact sortDescBy_stable (fun p : Nat × Entry => p.2.date) Prod.fst _
      (pairwise_fst_enum entries.flatten)

theorem aggregate_sorted_capped_witness :
    ((processEntries [[entryA, entryB]] cfg0).length : Int) ≤ cfg0.limit :=
  (aggregate_sorted_capped [[entryA, entryB]] cfg0).2.1 (by decide)

/-- C9: per-source failure isolation of the aggregation: the aggregate is
exactly the concatenation, in source order, of each feed-bearing source
contribution, a failed source contributing the empty list and a
successful one its parsed entries; when every source fails the aggregate
is the empty list, not an error; and degrading one source to a failure
while leaving the network otherwise unchanged replaces only that source
contribution with the empty list. -/
theorem source_failure_isolation (net : String → FetchResult) (friends : List Friend)
    (dp : String → Option Int) (now : Int) (cfg : Config) :
    fetchAllFeeds net friends dp now cfg
      = ((friends.filter (fun fr => feedTruthy fr.feed)).map
          (fun fr => match net (urlOf fr) with
                     | .success doc => parseFeed dp now doc fr.name cfg
                     | _ => [])).flatten
  ∧ ((∀ fr ∈ friends, feedTruthy fr.feed = true → (net (urlOf fr)).failed = true) →
       fetchAllFeeds net friends dp now cfg = [])
  ∧ (∀ (g : String → FetchResult) (u : String),
       (∀ fr ∈ friends, feedTruthy fr.feed = true → urlOf fr ≠ u →
          g (urlOf fr) = net (urlOf fr)) →
       (g u).failed = true →
       fetchAllFeeds g friends dp now cfg
         = ((friends.filter (fun fr => feedTruthy fr.feed)).map
             (fun fr => if urlOf fr = u then []
                        else match net (urlOf fr) with
                             | .success doc => parseFeed dp now doc fr.name cfg
                             | _ => [])).flatten) := by
  refine ⟨rfl, ?_, ?_⟩
  · induction friends with
    | nil => intro _; rfl
    | cons fr frs ih =>
      intro hall
      have htail := ih (fun fr2 h2 hf => hall fr2 (List.mem_cons_of_mem _ h2) hf)
      unfold fetchAllFeeds
      rw [List.filter_cons]
      by_cases hP : feedTruthy fr.feed
      · rw [if_pos (by simpa using hP)]
        simp only [List.map_cons, List.flatten_cons]
        rw [fetchFeed_const_failed _ _ _ _ _ (hall fr (by simp) hP)]
        rw [List.nil_append]
        exact htail
      · rw [if_neg (by simpa using hP)]
        exact htail
  · intro g u
    induction friends with
    | nil => intro _ _; rfl
    | cons fr frs ih =>
      intro hag hfail
      have htail := ih (fun fr2 h2 hf hne => hag fr2 (List.mem_cons_of_mem _ h2) hf hne) hfail
      unfold fetchAllFeeds
      rw [List.filter_cons]
      by_cases hP : feedTruthy fr.feed
      · rw [if_pos (by simpa using hP)]
        simp only [List.map_cons, List.flatten_cons]
        unfold fetchAllFeeds at htail
        rw [htail]
        congr 1
        by_cases hu : urlOf fr = u
        · rw [if_pos hu, hu]
          exact fetchFeed_const_failed _ _ _ _ _ hfail
        · rw [if_neg hu]
          unfold fetchFeed
          rw [hag fr (by simp) hP hu]
      · rw [if_neg (by simpa using hP)]
        unfold fetchAllFeeds at htail
        exact htail

theorem source_failure_isolation_witness :
    fetchAllFeeds (fun _ => FetchResult.timeout) [⟨"f1", some "u1"⟩] dpW 0 cfg0 = [] :=
  (source_failure_isolation (fun _ => FetchResult.timeout) [⟨"f1", some "u1"⟩] dpW 0 cfg0).2.1
    (by decide)

/-- C10, counterexample: parsing the same raw document twice is not
deterministic across invocations: an item without a date field takes the
processing time as its timestamp, so two parses of the same document at
different times yield different sequences. -/
theorem reparse_time_dependence :
    parseFeed dpW 1000 (rssDoc [undatedItem]) "s" cfg0
      ≠ parseFeed dpW 2000 (rssDoc [undatedItem]) "s" cfg0 := by
  decide

/-- C10, amended: the parser depends on the invocation time only through
per-item date resolution and the recency cutoff: two parses of the same
document whose items resolve to the same dates at both times (in
particular items carrying a parsable date field) and classify identically
against both cutoffs are equal; items lacking a date field take the
invocation time as their timestamp, so parses at different times may
differ there. -/
theorem parse_time_determinism (dp : String → Option Int) (now1 now2 : Int) (doc : XDoc)
    (name : String) (cfg : Config)
    (hrss : ∀ item ∈ rssItems doc, resolveDateRss dp now1 item = resolveDateRss dp now2 item)
    (hatom : ∀ item ∈ atomItems doc, resolveDateAtom dp now1 item = resolveDateAtom dp now2 item)
    (hcutR : ∀ item ∈ rssItems doc, ∀ t, resolveDateRss dp now1 item = some t →
       (now1 - cfg.daysLimit * 86400000 < t ↔ now2 - cfg.daysLimit * 86400000 < t))
    (hcutA : ∀ item ∈ atomItems doc, ∀ t, resolveDateAtom dp now1 item = some t →
       (now1 - cfg.daysLimit * 86400000 < t ↔ now2 - cfg.daysLimit * 86400000 < t)) :
    parseFeed dp now1 doc name cfg = parseFeed dp now2 doc name cfg := by
  rcases doc with _ | ch? | en? | _
  · rfl
  · rcases ch? with _ | channels
    · rfl
    · rcases channels with _ | ⟨ch, rest⟩
      · rfl
      · simp only [parseFeed, List.head?]
        rw [collectEntries_congr
          (rssItemEntry dp now1 (now1 - cfg.daysLimit * 86400000) cfg name)
          (rssItemEntry dp now2 (now2 - cfg.daysLimit * 86400000) cfg name)
          (ch.item.getD [])
          (fun i hi => rssItemEntry_time_congr dp now1 now2 _ _ cfg name i
            (hrss i hi) (fun t ht => hcutR i hi t ht))]
  · simp only [parseFeed]
    rw [collectEntries_congr
      (atomItemEntry dp now1 (now1 - cfg.daysLimit * 86400000) cfg name)
      (atomItemEntry dp now2 (now2 - cfg.daysLimit * 86400000) cfg name)
      (en?.getD [])
      (fun i hi => atomItemEntry_time_congr dp now1 now2 _ _ cfg name i
        (hatom i hi) (fun t ht => hcutA i hi t ht))]
  · rfl

theorem parse_time_determinism_witness :
    parseFeed dpW 0 (rssDoc [goodItem]) "s" cfg0
      = parseFeed dpW 1 (rssDoc [goodItem]) "s" cfg0 := by
  apply parse_time_determinism
  · intro item hi
    have he : item = goodItem := by simpa [rssItems, rssDoc, goodItem] using hi
    subst he
    decide
  · intro item hi
    simp [atomItems, rssDoc] at hi
  · intro item hi t ht
    have he : item = goodItem := by simpa [rssItems, rssDoc, goodItem] using hi
    subst he
    have h1000 : resolveDateRss dpW 0 goodItem = some 1000 := by decide
    rw [h1000] at ht
    rcases Option.some.inj ht with rfl
    constructor
    · intro _; decide
    · intro _; decide
  · intro item hi t ht
    simp [atomItems, rssDoc] at hi

end FriendCircle
